import Mathlib

/-! # Concurrent page scraper (`Assignment 1/main.go`)

A shallow embedding of `fetchPage` and of the scatter-gather loop of `main`.

* The parsed document is a tree of `Node`s shaped like `golang.org/x/net/html`
  nodes; `Find`, `First`, `Text`, `Attr` and `Each` follow the `goquery`
  operations that `fetchPage` calls, and `Sel` is the compiled form of the three
  selector strings it uses.
* The network and the parser are a `World`: three fallible functions standing
  for `http.NewRequest`, `client.Do` and `goquery.NewDocumentFromReader`.
* Side effects of `fetchPage` (log lines, the request being sent, the deferred
  close of the body) are returned as a list of `Event`s next to the record.
* The goroutines and the unbuffered channel of `main` are a transition system
  whose `Action`s are the choices of the scheduler.
-/

namespace Scraper

/-! ## Data model -/

/-- The record extracted for one URL (`type ScrapedData struct`).  A `nil` slice and an
empty slice are both the empty list. -/
structure ScrapedData where
  URL : String
  Title : String
  Description : String
  Headings : List String
  deriving DecidableEq, Repr

/-- Node kinds of `golang.org/x/net/html`. -/
inductive NodeType where
  | ErrorNode
  | TextNode
  | DocumentNode
  | ElementNode
  | CommentNode
  | DoctypeNode
  deriving DecidableEq, Repr

/-- An attribute of an element node. -/
structure Attribute where
  Key : String
  Val : String
  deriving DecidableEq, Repr

/-- A node of the parsed document with its children in sibling order. -/
inductive Node where
  | mk (Typ : NodeType) (Data : String) (Attr : List Attribute) (children : List Node)

namespace Node

/-- Kind of the node. -/
def Typ : Node → NodeType
  | mk t _ _ _ => t

/-- Tag name of an element, content of a text node. -/
def Data : Node → String
  | mk _ d _ _ => d

/-- Attributes of the node. -/
def Attr : Node → List Attribute
  | mk _ _ a _ => a

/-- Children of the node, first child first. -/
def children : Node → List Node
  | mk _ _ _ cs => cs

end Node

mutual
/-- Text of one node as `Selection.Text` collects it: the data of every text node of the
subtree, in order, nothing trimmed. -/
def nodeText : Node → String
  | .mk t d _ cs => (if t = NodeType.TextNode then d else "") ++ nodeTextList cs
/-- Text of a run of siblings. -/
def nodeTextList : List Node → String
  | [] => ""
  | c :: cs => nodeText c ++ nodeTextList cs
end

mutual
/-- The subtree of a node in document order: the node, then the subtrees of its children. -/
def preorder : Node → List Node
  | .mk t d a cs => .mk t d a cs :: preorderList cs
/-- Document order of a run of siblings. -/
def preorderList : List Node → List Node
  | [] => []
  | c :: cs => preorder c ++ preorderList cs
end

/-- Every node strictly below the root, in document order. -/
def descendants (doc : Node) : List Node :=
  preorderList doc.children

mutual
/-- Selector walk `matchAllInto` of cascadia: the node itself when it matches, then the
matches below each child, left to right. -/
def matchAllInto (m : Node → Bool) : Node → List Node
  | .mk t d a cs =>
    (if m (.mk t d a cs) then [.mk t d a cs] else []) ++ matchAllList m cs
/-- The walk over a run of siblings. -/
def matchAllList (m : Node → Bool) : List Node → List Node
  | [] => []
  | c :: cs => matchAllInto m c ++ matchAllList m cs
end

/-- Compiled selectors, as far as `fetchPage` needs them. -/
inductive Sel where
  | tag (name : String)
  | attrEq (key val : String)
  | both (a b : Sel)
  | either (a b : Sel)

/-- Whether a node matches a selector: only element nodes ever match. -/
def Sel.matches : Sel → Node → Bool
  | .tag name, n => n.Typ = NodeType.ElementNode && n.Data = name
  | .attrEq key val, n =>
    n.Typ = NodeType.ElementNode && n.Attr.any (fun a => a.Key = key && a.Val = val)
  | .both a b, n => a.matches n && b.matches n
  | .either a b, n => a.matches n || b.matches n

/-- Selector `"title"`. -/
def selTitle : Sel := .tag "title"

/-- Selector `"meta[name='description']"`. -/
def selMetaDescription : Sel := .both (.tag "meta") (.attrEq "name" "description")

/-- Selector `"h1, h2, h3"`. -/
def selHeadings : Sel := .either (.tag "h1") (.either (.tag "h2") (.tag "h3"))

/-- A goquery selection: its nodes in order. -/
abbrev Selection := List Node

/-- Lookup `doc.Find(selector)` from the document root: the selector walk is run on every
element child of the root, in sibling order.  Below a single root the walks never meet the
same node twice, so the duplicate removal of goquery has nothing to remove. -/
def Find (doc : Node) (sel : Sel) : Selection :=
  (doc.children.filter (fun c => c.Typ = NodeType.ElementNode)).flatMap
    (matchAllInto sel.matches)

/-- Reduction `First()`: the first node alone, or the empty selection. -/
def First (s : Selection) : Selection :=
  s.take 1

/-- Combined text `Text()` of the nodes of a selection. -/
def Text (s : Selection) : String :=
  nodeTextList s

/-- Value of the first attribute of a node with the given key. -/
def getAttributeValue (attrName : String) (n : Node) : String × Bool :=
  match n.Attr.find? (fun a => a.Key = attrName) with
  | some a => (a.Val, true)
  | none => ("", false)

/-- Lookup `Attr(name)`: the attribute of the first node of the selection. -/
def Attr (s : Selection) (attrName : String) : String × Bool :=
  match s with
  | [] => ("", false)
  | n :: _ => getAttributeValue attrName n

/-- Loop of `Each`, carrying the index and the state the callback updates. -/
def eachFrom {σ : Type} (f : Nat → Selection → σ → σ) : Nat → List Node → σ → σ
  | _, [], st => st
  | i, n :: ns, st => eachFrom f (i + 1) ns (f i [n] st)

/-- Iteration `Each(f)`: the callback runs once per node, in order, on the selection that
holds that node alone. -/
def Each {σ : Type} (s : Selection) (f : Nat → Selection → σ → σ) (st : σ) : σ :=
  eachFrom f 0 s st

/-! ## The network and `fetchPage` -/

/-- An outbound request. -/
structure Request where
  Method : String
  URL : String
  Header : List (String × String)
  deriving DecidableEq, Repr

/-- Assignment `req.Header.Set(key, value)`: the value replaces any earlier one. -/
def Request.setHeader (req : Request) (key value : String) : Request :=
  { req with Header := (key, value) :: req.Header.filter (fun kv => kv.1 ≠ key) }

/-- The HTTP client: only its timeout, in seconds, is configured. -/
structure Client where
  Timeout : Nat
  deriving DecidableEq, Repr

/-- What lies outside the program: building a request from a method and a URL, sending it
(the answer is the response body) and parsing a body.  Each may fail with a message. -/
structure World where
  NewRequest : String → String → Except String Request
  Do : Client → Request → Except String String
  NewDocumentFromReader : String → Except String Node

/-- Side effects of `fetchPage`. -/
inductive Event where
  | log (msg : String)
  | send (req : Request)
  | closeBody
  deriving DecidableEq, Repr

/-- The `User-Agent` header value of `fetchPage`. -/
def userAgent : String :=
  "Mozilla/5.0 (Windows NT 10.0; Win64; x64) AppleWebKit/537.36 (KHTML, like Gecko) Chrome/91.0.4472.124 Safari/537.36"

/-- The client of `fetchPage`: 15 seconds of timeout. -/
def client : Client := { Timeout := 15 }

/-- The request `fetchPage` sends once `http.NewRequest` returned `req`. -/
def outbound (req : Request) : Request :=
  req.setHeader "User-Agent" userAgent

/-- Field extraction of `fetchPage` on a parsed document (lines 49 to 72). -/
def extract (url : String) (doc : Node) : ScrapedData :=
  let title := Text (First (Find doc selTitle))
  let title := if title = "" then "No Title Found" else title
  let description := (Attr (Find doc selMetaDescription) "content").1
  let description := if description = "" then "No Description Found" else description
  let headings : List String :=
    Each (Find doc selHeadings) (fun _ s hs => hs ++ [Text s]) []
  { URL := url, Title := title, Description := description, Headings := headings }

/-- Function `fetchPage`: the record for one URL and the side effects in the order they
happen. -/
def fetchPage (w : World) (url : String) : ScrapedData × List Event :=
  match w.NewRequest "GET" url with
  | .error err =>
    ({ URL := url, Title := "Error", Description := "", Headings := [] },
      [.log ("Error creating request: " ++ err)])
  | .ok req =>
    match w.Do client (outbound req) with
    | .error err =>
      ({ URL := url, Title := "No Title Found", Description := "", Headings := [] },
        [.send (outbound req), .log ("Request failed: " ++ err)])
    | .ok body =>
      match w.NewDocumentFromReader body with
      | .error err =>
        ({ URL := url, Title := "No Title Found", Description := "", Headings := [] },
          [.send (outbound req), .log ("Error parsing HTML: " ++ err), .closeBody])
      | .ok doc =>
        (extract url doc, [.send (outbound req), .closeBody])

/-! ## The scatter-gather loop of `main` -/

/-- State of lines 87 to 100 of `main`. -/
structure State where
  /-- URLs the launch loop has still to start a goroutine for. -/
  launchRest : List String
  /-- Iterations the gather loop has still to make. -/
  gatherRest : List String
  /-- Goroutines that are still inside `fetchPage`, by URL. -/
  running : List String
  /-- Goroutines that hold their record and wait to send it on the unbuffered channel. -/
  blocked : List ScrapedData
  /-- The slice `results`. -/
  results : List ScrapedData
  deriving DecidableEq

/-- State before the launch loop: `results` is empty and no goroutine exists. -/
def init (urls : List String) : State :=
  { launchRest := urls, gatherRest := urls, running := [], blocked := [], results := [] }

/-- A choice of the scheduler.  `launch` is one iteration of the launch loop,
`compute i w` lets the `i`-th running goroutine finish `fetchPage` in the world `w`,
`receive j` is one iteration of the gather loop that takes the record of the `j`-th
waiting goroutine. -/
inductive Action where
  | launch
  | compute (i : Nat) (w : World)
  | receive (j : Nat)

/-- One step; `none` when the action is not enabled.  The gather loop starts only after the
launch loop has ended, and a send on the unbuffered channel completes only together with a
receive. -/
def step (a : Action) (s : State) : Option State :=
  match a with
  | .launch =>
    match s.launchRest with
    | [] => none
    | u :: rest => some { s with launchRest := rest, running := s.running ++ [u] }
  | .compute i w =>
    match s.running[i]? with
    | none => none
    | some u =>
      some { s with running := s.running.eraseIdx i,
                    blocked := s.blocked ++ [(fetchPage w u).1] }
  | .receive j =>
    match s.launchRest, s.gatherRest, s.blocked[j]? with
    | [], _ :: rest, some r =>
      some { s with gatherRest := rest, blocked := s.blocked.eraseIdx j,
                    results := s.results ++ [r] }
    | _, _, _ => none

/-- A run: the actions are taken one after the other. -/
def exec : List Action → State → Option State
  | [], s => some s
  | a :: rest, s => (step a s).bind (exec rest)

/-- Both loops of `main` have ended. -/
def State.Finished (s : State) : Prop :=
  s.launchRest = [] ∧ s.gatherRest = []

instance (s : State) : Decidable s.Finished := by
  unfold State.Finished; infer_instance

/-- Goroutines launched whose record has not been received yet. -/
def State.undelivered (s : State) : Nat :=
  s.running.length + s.blocked.length

/-- Steps still to be taken: three per URL to launch, two per running goroutine, one per
waiting goroutine. -/
def State.fuel (s : State) : Nat :=
  3 * s.launchRest.length + 2 * s.running.length + s.blocked.length

/-- The action was taken in the world `w`. -/
def Action.InWorld (w : World) : Action → Prop
  | .compute _ w0 => w0 = w
  | _ => True

/-- Children of the root that are not elements (doctype, comments, text) carry no children
of their own.  Every tree the HTML parser builds is of this kind. -/
def TopLevelLeaves (doc : Node) : Prop :=
  ∀ c ∈ doc.children, c.Typ ≠ NodeType.ElementNode → c.children = []

instance (doc : Node) : Decidable (TopLevelLeaves doc) :=
  decidable_of_iff
    (doc.children.all (fun c => decide (c.Typ = NodeType.ElementNode) || c.children.isEmpty)
      = true)
    (by
      simp only [TopLevelLeaves, List.all_eq_true, Bool.or_eq_true, decide_eq_true_eq,
        List.isEmpty_iff]
      exact forall₂_congr (fun c _ => by tauto))

/-- The counts that every step of the loop keeps. -/
structure Counts (urls : List String) (s : State) : Prop where
  tasks : s.launchRest.length + s.undelivered + s.results.length = urls.length
  gather : s.gatherRest.length + s.results.length = urls.length
  early : s.launchRest ≠ [] → s.results = []

/-- The action hands out records that agree with `f` under the view `g`: whatever URL the
goroutine was started for, the view of its record is what `f` gives for that URL. -/
def Action.Respects {β : Type} (g : ScrapedData → β) (f : String → β) : Action → Prop
  | .compute _ w => ∀ u, g (fetchPage w u).1 = f u
  | _ => True

/-- Every record of the batch under the view `g`, delivered or still to come: the records
in `results`, those of the waiting goroutines, and what `f` gives for the URLs that are
still being fetched or still to be launched. -/
def State.ledger {β : Type} (g : ScrapedData → β) (f : String → β) (s : State) : List β :=
  s.results.map g ++ s.blocked.map g ++ s.running.map f ++ s.launchRest.map f

/-! ## What the extraction is meant to find -/

/-- An element node with the given tag name. -/
def isElement (name : String) (n : Node) : Bool :=
  n.Typ = NodeType.ElementNode && n.Data = name

/-- A `meta` element whose `name` attribute is `description`. -/
def isMetaDescription (n : Node) : Bool :=
  isElement "meta" n && n.Attr.any (fun a => a.Key = "name" && a.Val = "description")

/-- A heading element of level 1, 2 or 3. -/
def isHeading (n : Node) : Bool :=
  isElement "h1" n || isElement "h2" n || isElement "h3" n

/-- Value of an attribute of a node, when the node has it. -/
def attribute? (n : Node) (key : String) : Option String :=
  (n.Attr.find? (fun a => a.Key = key)).map (fun a => a.Val)

/-- The title the extraction is meant to give: the text of the first `title` element of the
document when it is not empty, the fallback otherwise. -/
def expectedTitle (doc : Node) : String :=
  match (descendants doc).filter (isElement "title") with
  | [] => "No Title Found"
  | n :: _ => if nodeText n = "" then "No Title Found" else nodeText n

/-- The description the extraction is meant to give: the `content` of the first
description element when it has one that is not empty, the fallback otherwise. -/
def expectedDescription (doc : Node) : String :=
  match (descendants doc).filter isMetaDescription with
  | [] => "No Description Found"
  | n :: _ =>
    match attribute? n "content" with
    | none => "No Description Found"
    | some v => if v = "" then "No Description Found" else v

/-! ## Sample inputs -/

/-- A text node. -/
def txt (s : String) : Node := .mk .TextNode s [] []

/-- An element node. -/
def el (name : String) (attrs : List Attribute) (cs : List Node) : Node :=
  .mk .ElementNode name attrs cs

/-- The tree the parser builds for the markup `<h1>A</h1><h2>B</h2><h3>C</h3>`. -/
def docABC : Node :=
  .mk .DocumentNode "" [] [el "html" [] [el "head" [] [],
    el "body" [] [el "h1" [] [txt "A"], el "h2" [] [txt "B"], el "h3" [] [txt "C"]]]]

/-- A page with a title, a description and headings, one of them empty. -/
def docFull : Node :=
  .mk .DocumentNode "" [] [.mk .DoctypeNode "html" [] [], el "html" [] [
    el "head" [] [el "title" [] [txt "Home"],
      el "meta" [⟨"charset", "utf-8"⟩] [],
      el "meta" [⟨"name", "description"⟩, ⟨"content", "A page"⟩] []],
    el "body" [] [el "h2" [] [txt "Intro"], el "p" [] [txt "text"], el "h1" [] []]]]

/-- A page whose title is the word `Error`. -/
def docErrorTitle : Node :=
  .mk .DocumentNode "" [] [el "html" [] [el "head" [] [el "title" [] [txt "Error"]],
    el "body" [] []]]

/-- A page whose first title and first description are empty while later ones are not. -/
def docEmptyFirst : Node :=
  .mk .DocumentNode "" [] [el "html" [] [
    el "head" [] [el "title" [] [],
      el "meta" [⟨"name", "description"⟩, ⟨"content", ""⟩] [],
      el "meta" [⟨"name", "description"⟩, ⟨"content", "later"⟩] []],
    el "body" [] [el "svg" [] [el "title" [] [txt "later"]]]]]

/-- A page whose first description element has no `content` attribute. -/
def docNoContent : Node :=
  .mk .DocumentNode "" [] [el "html" [] [
    el "head" [] [el "meta" [⟨"name", "description"⟩] [],
      el "meta" [⟨"name", "description"⟩, ⟨"content", "later"⟩] []],
    el "body" [] []]]

/-- A small network: one URL cannot be turned into a request, one host is down, one body
cannot be read, and the others serve fixed pages. -/
def sampleWorld : World where
  NewRequest := fun method url =>
    if url = "://bad" then .error "missing protocol scheme"
    else .ok { Method := method, URL := url, Header := [] }
  Do := fun _ req =>
    if req.URL = "http://down" then .error "connection refused" else .ok req.URL
  NewDocumentFromReader := fun body =>
    if body = "http://broken" then .error "unexpected EOF"
    else if body = "http://abc" then .ok docABC
    else if body = "http://error" then .ok docErrorTitle
    else if body = "http://empty" then .ok docEmptyFirst
    else if body = "http://nocontent" then .ok docNoContent
    else .ok docFull

/-- Two URLs: one serves the three headings, the other cannot be turned into a request. -/
def sampleUrls : List String := ["http://abc", "://bad"]

/-- A run in which the first goroutine finishes before the second is launched and the
records arrive in the opposite order of the URLs. -/
def sampleRun : List Action :=
  [.launch, .compute 0 sampleWorld, .launch, .compute 0 sampleWorld, .receive 1, .receive 0]

/-- A run in which the records arrive in the order of the URLs. -/
def sampleRunInOrder : List Action :=
  [.launch, .launch, .compute 0 sampleWorld, .compute 0 sampleWorld, .receive 0, .receive 0]

/-- The state the launch loop is in after its first iteration in `sampleRun`, once the
goroutine it started has its record. -/
def sampleMidLaunch : State :=
  { launchRest := ["://bad"], gatherRest := sampleUrls, running := [],
    blocked := [(fetchPage sampleWorld "http://abc").1], results := [] }

/-- The state at the end of `sampleRun`. -/
def sampleFinal : State :=
  { launchRest := [], gatherRest := [], running := [], blocked := [],
    results := [(fetchPage sampleWorld "://bad").1, (fetchPage sampleWorld "http://abc").1] }

/-- The state at the end of `sampleRunInOrder`. -/
def sampleFinalInOrder : State :=
  { launchRest := [], gatherRest := [], running := [], blocked := [],
    results := [(fetchPage sampleWorld "http://abc").1, (fetchPage sampleWorld "://bad").1] }

/-! ## Lemmas on the document queries -/

mutual
/-- The selector walk keeps, in document order, the nodes of the subtree that match. -/
theorem matchAllInto_eq_filter (m : Node → Bool) :
    ∀ n, matchAllInto m n = (preorder n).filter m
  | .mk t d a cs => by
    have ih := matchAllList_eq_filter m cs
    cases hm : m (.mk t d a cs) <;> simp [matchAllInto, preorder, List.filter_cons, hm, ih]
/-- The same for a run of siblings. -/
theorem matchAllList_eq_filter (m : Node → Bool) :
    ∀ cs, matchAllList m cs = (preorderList cs).filter m
  | [] => rfl
  | c :: cs => by
    simp [matchAllList, preorderList, matchAllInto_eq_filter m c, matchAllList_eq_filter m cs]
end

/-- A selector only ever matches element nodes. -/
theorem Sel.matches_element : ∀ (sel : Sel) (n : Node),
    sel.matches n = true → n.Typ = NodeType.ElementNode
  | .tag _, n, h => by simp [Sel.matches] at h; exact h.1
  | .attrEq _ _, n, h => by simp [Sel.matches] at h; exact h.1
  | .both a _, n, h => by
    simp [Sel.matches] at h
    exact Sel.matches_element a n h.1
  | .either a b, n, h => by
    simp [Sel.matches] at h
    rcases h with h | h
    · exact Sel.matches_element a n h
    · exact Sel.matches_element b n h

theorem flatMap_matchAll_eq_filter (sel : Sel) : ∀ cs : List Node,
    (∀ c ∈ cs, c.Typ ≠ NodeType.ElementNode → c.children = []) →
    (cs.filter (fun c => c.Typ = NodeType.ElementNode)).flatMap (matchAllInto sel.matches)
      = (preorderList cs).filter sel.matches
  | [], _ => rfl
  | c :: cs, h => by
    have ih := flatMap_matchAll_eq_filter sel cs
      (fun x hx => h x (List.mem_cons_of_mem _ hx))
    by_cases hc : c.Typ = NodeType.ElementNode
    · simp [List.filter_cons, hc, preorderList, List.flatMap_cons, ih, matchAllInto_eq_filter]
    · have hleaf := h c (List.mem_cons_self _ _) hc
      have hno : sel.matches c = false := by
        cases hm : sel.matches c
        · rfl
        · exact absurd (Sel.matches_element sel c hm) hc
      obtain ⟨t, d, a, ks⟩ := c
      simp only [Node.children] at hleaf
      subst hleaf
      simp [List.filter_cons, hc, preorderList, preorder, ih, hno]

/-- On a parsed document `Find` returns, in document order, every node below the root that
matches the selector. -/
theorem Find_eq_filter (doc : Node) (sel : Sel) (hwf : TopLevelLeaves doc) :
    Find doc sel = (descendants doc).filter sel.matches :=
  flatMap_matchAll_eq_filter sel doc.children hwf

theorem Text_singleton (n : Node) : Text [n] = nodeText n := by
  simp [Text, nodeTextList]

theorem Text_First_nil : Text (First []) = "" := rfl

theorem Text_First_cons (n : Node) (rest : List Node) :
    Text (First (n :: rest)) = nodeText n := by
  simp [First, Text, nodeTextList]

theorem eachFrom_collect : ∀ (ns : List Node) (i : Nat) (hs : List String),
    eachFrom (fun _ s (hs : List String) => hs ++ [Text s]) i ns hs = hs ++ ns.map nodeText
  | [], _, hs => by simp [eachFrom]
  | n :: ns, i, hs => by
    simp [eachFrom, eachFrom_collect ns (i + 1), Text_singleton]

/-- The loop over the headings collects the text of every node of the selection. -/
theorem Each_collect (s : Selection) :
    Each s (fun _ s (hs : List String) => hs ++ [Text s]) [] = s.map nodeText := by
  simp [Each, eachFrom_collect]

theorem extract_Headings (url : String) (doc : Node) :
    (extract url doc).Headings = (Find doc selHeadings).map nodeText := by
  simp [extract, Each_collect]

/-- The record of `fetchPage` carries the URL it was called with, on every return path. -/
theorem fetchPage_URL (w : World) (url : String) : (fetchPage w url).1.URL = url := by
  unfold fetchPage
  split
  · rfl
  · split
    · rfl
    · split <;> rfl

/-- The record of a page that was fetched and parsed is the extraction on its document. -/
theorem fetchPage_ok (w : World) (url : String) (req : Request) (body : String) (doc : Node)
    (hreq : w.NewRequest "GET" url = .ok req)
    (hdo : w.Do client (outbound req) = .ok body)
    (hparse : w.NewDocumentFromReader body = .ok doc) :
    fetchPage w url = (extract url doc, [.send (outbound req), .closeBody]) := by
  simp [fetchPage, hreq, hdo, hparse]


/-! ## Lemmas on the scatter-gather loop -/

theorem perm_cons_eraseIdx {α : Type} : ∀ (l : List α) (i : Nat) (x : α),
    l[i]? = some x → l.Perm (x :: l.eraseIdx i)
  | [], _, _, h => by simp at h
  | y :: l, 0, x, h => by
    simp at h
    subst h
    simp
  | y :: l, i + 1, x, h => by
    simp at h
    simp only [List.eraseIdx_cons_succ]
    exact ((perm_cons_eraseIdx l i x h).cons y).trans (List.Perm.swap x y _)

theorem length_eraseIdx_add_one {α : Type} (l : List α) (i : Nat) (x : α)
    (h : l[i]? = some x) : (l.eraseIdx i).length + 1 = l.length := by
  have := (perm_cons_eraseIdx l i x h).length_eq
  simp at this
  omega

/-- A run of the first actions followed by one more. -/
theorem exec_append (as bs : List Action) (s : State) :
    exec (as ++ bs) s = (exec as s).bind (exec bs) := by
  induction as generalizing s with
  | nil => simp [exec]
  | cons a as ih =>
    simp only [List.cons_append, exec]
    cases step a s with
    | none => rfl
    | some s1 => simpa using ih s1

/-- A property that the initial state has and every step keeps holds after every run. -/
theorem exec_invariant (P : State → Prop) (Q : Action → Prop)
    (hstep : ∀ a s s1, Q a → P s → step a s = some s1 → P s1) :
    ∀ (acts : List Action) (s s1 : State), (∀ a ∈ acts, Q a) → P s →
      exec acts s = some s1 → P s1
  | [], s, s1, _, hP, h => by
    simp [exec] at h
    exact h ▸ hP
  | a :: acts, s, s1, hQ, hP, h => by
    simp only [exec] at h
    cases hs : step a s with
    | none => simp [hs] at h
    | some s2 =>
      simp [hs] at h
      exact exec_invariant P Q hstep acts s2 s1
        (fun b hb => hQ b (List.mem_cons_of_mem _ hb))
        (hstep a s s2 (hQ a (List.mem_cons_self _ _)) hP hs) h

theorem Counts_init (urls : List String) : Counts urls (init urls) := by
  constructor <;> simp [init, State.undelivered]

theorem Counts_step (urls : List String) (a : Action) (s s1 : State)
    (hs : Counts urls s) (h : step a s = some s1) : Counts urls s1 := by
  obtain ⟨h1, h2, h3⟩ := hs
  cases a with
  | launch =>
    simp only [step] at h
    split at h
    · simp at h
    · rename_i u rest hl
      simp at h
      subst h
      constructor
      · simp [State.undelivered, hl] at h1 ⊢
        omega
      · simpa using h2
      · intro _
        exact h3 (by simp [hl])
  | compute i w =>
    simp only [step] at h
    split at h
    · simp at h
    · rename_i u hu
      simp at h
      subst h
      have hlen := length_eraseIdx_add_one s.running i u hu
      constructor
      · simp [State.undelivered] at h1 ⊢
        omega
      · simpa using h2
      · simpa using h3
  | receive j =>
    simp only [step] at h
    split at h
    · rename_i rest r hl hg hb
      simp at h
      subst h
      have hlen := length_eraseIdx_add_one s.blocked j r hb
      constructor
      · simp [State.undelivered, hl] at h1 ⊢
        omega
      · simp [hg] at h2 ⊢
        omega
      · intro hne
        exact absurd hl hne
    · simp at h

/-- The counts hold in every state a run reaches. -/
theorem Counts_exec (urls : List String) (acts : List Action) (s : State)
    (h : exec acts (init urls) = some s) : Counts urls s :=
  exec_invariant (Counts urls) (fun _ => True)
    (fun a s s1 _ hs hstep => Counts_step urls a s s1 hs hstep)
    acts (init urls) s (fun _ _ => trivial) (Counts_init urls) h

/-- Every step uses up one unit of fuel. -/
theorem fuel_step (a : Action) (s s1 : State) (h : step a s = some s1) :
    s1.fuel + 1 = s.fuel := by
  cases a with
  | launch =>
    simp only [step] at h
    split at h
    · simp at h
    · rename_i u rest hl
      simp at h
      subst h
      simp [State.fuel, hl]
      omega
  | compute i w =>
    simp only [step] at h
    split at h
    · simp at h
    · rename_i u hu
      simp at h
      subst h
      have hlen := length_eraseIdx_add_one s.running i u hu
      simp [State.fuel]
      omega
  | receive j =>
    simp only [step] at h
    split at h
    · rename_i rest r hl hg hb
      simp at h
      subst h
      have hlen := length_eraseIdx_add_one s.blocked j r hb
      simp [State.fuel, hl]
      omega
    · simp at h

/-- A run of `k` actions uses up `k` units of fuel. -/
theorem fuel_exec : ∀ (acts : List Action) (s s1 : State),
    exec acts s = some s1 → s1.fuel + acts.length = s.fuel
  | [], s, s1, h => by
    simp [exec] at h
    simp [h]
  | a :: acts, s, s1, h => by
    simp only [exec] at h
    cases hs : step a s with
    | none => simp [hs] at h
    | some s2 =>
      simp [hs] at h
      have h1 := fuel_exec acts s2 s1 h
      have h2 := fuel_step a s s2 hs
      simp only [List.length_cons]
      omega


/-- While a loop of `main` is still running, some action is enabled, in any world. -/
theorem progress (urls : List String) (s : State) (w : World)
    (hc : Counts urls s) (hnf : ¬ s.Finished) :
    ∃ a s1, a.InWorld w ∧ step a s = some s1 := by
  obtain ⟨launchRest, gatherRest, running, blocked, results⟩ := s
  obtain ⟨h1, h2, _⟩ := hc
  simp only [State.undelivered] at h1 h2
  cases launchRest with
  | cons u rest => exact ⟨.launch, _, trivial, rfl⟩
  | nil =>
    cases gatherRest with
    | nil => exact absurd ⟨rfl, rfl⟩ hnf
    | cons g grest =>
      cases blocked with
      | cons r brest => exact ⟨.receive 0, by simp [step, Action.InWorld]⟩
      | nil =>
        cases running with
        | cons u rrest => exact ⟨.compute 0 w, by simp [step, Action.InWorld]⟩
        | nil =>
          simp at h1 h2
          omega

/-- From every state of a run the loops can be brought to their end, in any world. -/
theorem exists_finish (urls : List String) (w : World) : ∀ (k : Nat) (s : State),
    s.fuel = k → Counts urls s →
    ∃ acts s1, (∀ a ∈ acts, a.InWorld w) ∧ exec acts s = some s1 ∧ s1.Finished := by
  intro k
  induction k using Nat.strong_induction_on with
  | _ k ih =>
    intro s hk hc
    by_cases hf : s.Finished
    · exact ⟨[], s, by simp, rfl, hf⟩
    · obtain ⟨a, s1, ha, hs⟩ := progress urls s w hc hf
      have hfuel := fuel_step a s s1 hs
      obtain ⟨acts, s2, hw, he, hfin⟩ :=
        ih s1.fuel (by omega) s1 rfl (Counts_step urls a s s1 hc hs)
      refine ⟨a :: acts, s2, ?_, ?_, hfin⟩
      · intro b hb
        rcases List.mem_cons.mp hb with rfl | hb
        · exact ha
        · exact hw b hb
      · simp [exec, hs, he]

theorem ledger_init {β : Type} (g : ScrapedData → β) (f : String → β) (urls : List String) :
    (init urls).ledger g f = urls.map f := by
  simp [State.ledger, init]

/-- A step only moves entries of the ledger around. -/
theorem ledger_step {β : Type} [DecidableEq β] (g : ScrapedData → β) (f : String → β)
    (a : Action) (s s1 : State) (ha : a.Respects g f) (h : step a s = some s1) :
    (s1.ledger g f).Perm (s.ledger g f) := by
  cases a with
  | launch =>
    simp only [step] at h
    split at h
    · simp at h
    · rename_i u rest hl
      simp at h
      subst h
      simp [State.ledger, hl]
  | compute i w =>
    simp only [step] at h
    split at h
    · simp at h
    · rename_i u hu
      simp at h
      subst h
      have hp := ((perm_cons_eraseIdx s.running i u hu).map f)
      have hg : g (fetchPage w u).1 = f u := ha u
      rw [List.perm_iff_count]
      intro b
      have hc := List.perm_iff_count.mp hp b
      simp only [List.map_cons, List.count_cons] at hc
      simp only [State.ledger, List.map_append, List.count_append, List.map_cons,
        List.map_nil, List.count_cons, List.count_nil, hg]
      omega
  | receive j =>
    simp only [step] at h
    split at h
    · rename_i rest r hl hg hb
      simp at h
      subst h
      have hp := ((perm_cons_eraseIdx s.blocked j r hb).map g)
      rw [List.perm_iff_count]
      intro b
      have hc := List.perm_iff_count.mp hp b
      simp only [List.map_cons, List.count_cons] at hc
      simp only [State.ledger, List.map_append, List.count_append, List.map_cons,
        List.map_nil, List.count_cons, List.count_nil]
      omega
    · simp at h

/-- After any run the ledger is a rearrangement of what `f` gives for the submitted URLs. -/
theorem ledger_exec {β : Type} [DecidableEq β] (g : ScrapedData → β) (f : String → β)
    (urls : List String) (acts : List Action) (s : State)
    (hacts : ∀ a ∈ acts, a.Respects g f) (h : exec acts (init urls) = some s) :
    (s.ledger g f).Perm (urls.map f) :=
  exec_invariant (fun s => (s.ledger g f).Perm (urls.map f)) (Action.Respects g f)
    (fun a s s1 ha hs hstep => (ledger_step g f a s s1 ha hstep).trans hs)
    acts (init urls) s hacts (by simp [ledger_init]) h

/-- Once both loops have ended the ledger is the view of `results`. -/
theorem ledger_finished {β : Type} (g : ScrapedData → β) (f : String → β)
    (urls : List String) (s : State) (hc : Counts urls s) (hf : s.Finished) :
    s.ledger g f = s.results.map g := by
  obtain ⟨h1, h2, _⟩ := hc
  obtain ⟨hl, hg⟩ := hf
  simp only [State.undelivered, hl, hg, List.length_nil] at h1 h2
  have hr : s.running = [] := List.eq_nil_of_length_eq_zero (by omega)
  have hb : s.blocked = [] := List.eq_nil_of_length_eq_zero (by omega)
  simp [State.ledger, hl, hr, hb]


/-! ## Extraction: selectors against the intended elements -/

theorem selTitle_matches : selTitle.matches = isElement "title" := by
  funext n
  simp [selTitle, Sel.matches, isElement]

theorem selMetaDescription_matches : selMetaDescription.matches = isMetaDescription := by
  funext n
  by_cases h : n.Typ = NodeType.ElementNode <;>
    simp [selMetaDescription, Sel.matches, isMetaDescription, isElement, h]

theorem selHeadings_matches : selHeadings.matches = isHeading := by
  funext n
  simp [selHeadings, Sel.matches, isHeading, isElement, Bool.or_assoc]

theorem extract_Title (url : String) (doc : Node) (hwf : TopLevelLeaves doc) :
    (extract url doc).Title = expectedTitle doc := by
  simp only [extract, expectedTitle, Find_eq_filter doc selTitle hwf, selTitle_matches]
  cases (descendants doc).filter (isElement "title") with
  | nil => simp [Text_First_nil]
  | cons n rest => simp [Text_First_cons]

theorem extract_Description (url : String) (doc : Node) (hwf : TopLevelLeaves doc) :
    (extract url doc).Description = expectedDescription doc := by
  simp only [extract, expectedDescription, Find_eq_filter doc selMetaDescription hwf,
    selMetaDescription_matches]
  cases (descendants doc).filter isMetaDescription with
  | nil => simp [Attr]
  | cons n rest =>
    simp only [Attr, getAttributeValue, attribute?]
    cases n.Attr.find? (fun a => a.Key = "content") with
    | none => simp
    | some a => simp

/-- No return path of `fetchPage` leaves the title empty. -/
theorem fetchPage_Title_ne_empty (w : World) (url : String) :
    (fetchPage w url).1.Title ≠ "" := by
  unfold fetchPage
  split
  · simp
  · split
    · simp
    · split
      · simp
      · simp only [extract]
        split
        · simp
        · assumption

/-! ## The claims on `fetchPage` -/

/-- Claim C3.  For a page that was fetched and parsed, the title of the record is the text of
the first `title` element in document order when that text is not empty, and is
`"No Title Found"` when the document has no `title` element or the text of the first one is
empty, whatever later `title` elements hold.  The title of a record is never empty. -/
theorem fetchPage_title (w : World) (url : String) (req : Request) (body : String)
    (doc : Node)
    (hreq : w.NewRequest "GET" url = .ok req)
    (hdo : w.Do client (outbound req) = .ok body)
    (hparse : w.NewDocumentFromReader body = .ok doc)
    (hwf : TopLevelLeaves doc) :
    (∀ n rest, (descendants doc).filter (isElement "title") = n :: rest →
        nodeText n ≠ "" → (fetchPage w url).1.Title = nodeText n) ∧
    (∀ n rest, (descendants doc).filter (isElement "title") = n :: rest →
        nodeText n = "" → (fetchPage w url).1.Title = "No Title Found") ∧
    ((descendants doc).filter (isElement "title") = [] →
        (fetchPage w url).1.Title = "No Title Found") ∧
    (fetchPage w url).1.Title ≠ "" := by
  have ht : (fetchPage w url).1.Title = expectedTitle doc := by
    rw [fetchPage_ok w url req body doc hreq hdo hparse]
    exact extract_Title url doc hwf
  refine ⟨?_, ?_, ?_, fetchPage_Title_ne_empty w url⟩
  · intro n rest hsel hne
    simp [ht, expectedTitle, hsel, hne]
  · intro n rest hsel he
    simp [ht, expectedTitle, hsel, he]
  · intro hsel
    simp [ht, expectedTitle, hsel]

/-- Claim C3 at the page of `http://empty`: the first `title` element is empty and a later
one is not, and the record has the fallback title. -/
theorem fetchPage_title_witness :
    sampleWorld.NewRequest "GET" "http://empty" = .ok ⟨"GET", "http://empty", []⟩ ∧
    TopLevelLeaves docEmptyFirst ∧
    ((descendants docEmptyFirst).filter (isElement "title")).map nodeText = ["", "later"] ∧
    (fetchPage sampleWorld "http://empty").1.Title = "No Title Found" :=
  ⟨rfl, by decide, by decide,
    (fetchPage_title sampleWorld "http://empty" ⟨"GET", "http://empty", []⟩ "http://empty"
      docEmptyFirst rfl rfl rfl (by decide)).2.1 (el "title" [] [])
      [el "title" [] [txt "later"]] rfl (by decide)⟩

/-- Claim C4.  For a page that was fetched and parsed, the description of the record is the
`content` attribute of the first `meta[name="description"]` element when that element exists
and has a `content` that is not empty, and is `"No Description Found"` when there is no such
element, or the first one has no `content`, or its `content` is empty; a later matching
element is not consulted. -/
theorem fetchPage_description (w : World) (url : String) (req : Request) (body : String)
    (doc : Node)
    (hreq : w.NewRequest "GET" url = .ok req)
    (hdo : w.Do client (outbound req) = .ok body)
    (hparse : w.NewDocumentFromReader body = .ok doc)
    (hwf : TopLevelLeaves doc) :
    (∀ n rest v, (descendants doc).filter isMetaDescription = n :: rest →
        attribute? n "content" = some v → v ≠ "" →
        (fetchPage w url).1.Description = v) ∧
    (∀ n rest, (descendants doc).filter isMetaDescription = n :: rest →
        attribute? n "content" = some "" →
        (fetchPage w url).1.Description = "No Description Found") ∧
    (∀ n rest, (descendants doc).filter isMetaDescription = n :: rest →
        attribute? n "content" = none →
        (fetchPage w url).1.Description = "No Description Found") ∧
    ((descendants doc).filter isMetaDescription = [] →
        (fetchPage w url).1.Description = "No Description Found") := by
  have hd : (fetchPage w url).1.Description = expectedDescription doc := by
    rw [fetchPage_ok w url req body doc hreq hdo hparse]
    exact extract_Description url doc hwf
  refine ⟨?_, ?_, ?_, ?_⟩
  · intro n rest v hsel hattr hne
    simp [hd, expectedDescription, hsel, hattr, hne]
  · intro n rest hsel hattr
    simp [hd, expectedDescription, hsel, hattr]
  · intro n rest hsel hattr
    simp [hd, expectedDescription, hsel, hattr]
  · intro hsel
    simp [hd, expectedDescription, hsel]

/-- Claim C4 at the page of `http://nocontent`: the first description element has no
`content`, a later one has, and the record has the fallback description. -/
theorem fetchPage_description_witness :
    sampleWorld.NewRequest "GET" "http://nocontent" = .ok ⟨"GET", "http://nocontent", []⟩ ∧
    TopLevelLeaves docNoContent ∧
    ((descendants docNoContent).filter isMetaDescription).map
      (fun n => attribute? n "content") = [none, some "later"] ∧
    (fetchPage sampleWorld "http://nocontent").1.Description = "No Description Found" :=
  ⟨rfl, by decide, by decide,
    (fetchPage_description sampleWorld "http://nocontent" ⟨"GET", "http://nocontent", []⟩
      "http://nocontent" docNoContent rfl rfl rfl (by decide)).2.2.1
      (el "meta" [⟨"name", "description"⟩] [])
      [el "meta" [⟨"name", "description"⟩, ⟨"content", "later"⟩] []] rfl (by decide)⟩

/-- Claim C5.  For a page that was fetched and parsed, the headings of the record are the
texts of all `h1`, `h2` and `h3` elements of the document, in document order, one entry per
element whatever its level and nothing filtered or trimmed: there are as many entries as
heading elements, and an element with empty text gives an empty entry. -/
theorem fetchPage_headings (w : World) (url : String) (req : Request) (body : String)
    (doc : Node)
    (hreq : w.NewRequest "GET" url = .ok req)
    (hdo : w.Do client (outbound req) = .ok body)
    (hparse : w.NewDocumentFromReader body = .ok doc)
    (hwf : TopLevelLeaves doc) :
    (fetchPage w url).1.Headings = ((descendants doc).filter isHeading).map nodeText ∧
    (fetchPage w url).1.Headings.length = (descendants doc).countP isHeading := by
  have hh : (fetchPage w url).1.Headings
      = ((descendants doc).filter isHeading).map nodeText := by
    rw [fetchPage_ok w url req body doc hreq hdo hparse, extract_Headings,
      Find_eq_filter doc selHeadings hwf, selHeadings_matches]
  exact ⟨hh, by rw [hh, List.length_map, List.countP_eq_length_filter]⟩

/-- Claim C5 at the markup `<h1>A</h1><h2>B</h2><h3>C</h3>`: the headings are `A`, `B`,
`C`.  On the page of `http://full`, whose `h1` has no text, the empty entry is kept. -/
theorem fetchPage_headings_witness :
    sampleWorld.NewRequest "GET" "http://abc" = .ok ⟨"GET", "http://abc", []⟩ ∧
    sampleWorld.Do client (outbound ⟨"GET", "http://abc", []⟩) = .ok "http://abc" ∧
    sampleWorld.NewDocumentFromReader "http://abc" = .ok docABC ∧
    TopLevelLeaves docABC ∧
    (fetchPage sampleWorld "http://abc").1.Headings = ["A", "B", "C"] ∧
    (fetchPage sampleWorld "http://full").1.Headings = ["Intro", ""] :=
  ⟨rfl, rfl, rfl, by decide,
    (fetchPage_headings sampleWorld "http://abc" ⟨"GET", "http://abc", []⟩ "http://abc"
      docABC rfl rfl rfl (by decide)).1.trans (by decide),
    (fetchPage_headings sampleWorld "http://full" ⟨"GET", "http://full", []⟩ "http://full"
      docFull rfl rfl rfl (by decide)).1.trans (by decide)⟩

/-- Claim C6.  When the request object is built and then either the request fails at the
transport layer or the body of the response cannot be parsed, `fetchPage` returns the record
with the URL it was given, the title `"No Title Found"`, an empty description and no
headings; the description is the empty string and not the `"No Description Found"`
fallback. -/
theorem fetchPage_transport_or_parse_fault (w : World) (url : String) (req : Request)
    (hreq : w.NewRequest "GET" url = .ok req)
    (hfault : (∃ err, w.Do client (outbound req) = .error err) ∨
      (∃ body err, w.Do client (outbound req) = .ok body ∧
        w.NewDocumentFromReader body = .error err)) :
    (fetchPage w url).1
      = { URL := url, Title := "No Title Found", Description := "", Headings := [] } ∧
    (fetchPage w url).1.Description ≠ "No Description Found" := by
  have hrec : (fetchPage w url).1
      = { URL := url, Title := "No Title Found", Description := "", Headings := [] } := by
    rcases hfault with ⟨err, hdo⟩ | ⟨body, err, hdo, hparse⟩
    · simp [fetchPage, hreq, hdo]
    · simp [fetchPage, hreq, hdo, hparse]
  refine ⟨hrec, ?_⟩
  rw [hrec]
  simp

/-- Claim C6 at a host that is down. -/
theorem fetchPage_transport_or_parse_fault_witness :
    sampleWorld.NewRequest "GET" "http://down" = .ok ⟨"GET", "http://down", []⟩ ∧
    sampleWorld.Do client (outbound ⟨"GET", "http://down", []⟩)
      = .error "connection refused" ∧
    (fetchPage sampleWorld "http://down").1
      = { URL := "http://down", Title := "No Title Found", Description := "",
          Headings := [] } ∧
    (fetchPage sampleWorld "http://down").1.Description ≠ "No Description Found" :=
  ⟨rfl, rfl,
    fetchPage_transport_or_parse_fault sampleWorld "http://down" ⟨"GET", "http://down", []⟩
      rfl (Or.inl ⟨"connection refused", rfl⟩)⟩

/-- Claim C7.  When the request object cannot be built, `fetchPage` returns the record with
the URL it was given, the title `"Error"`, an empty description and no headings, and nothing
is sent: the only side effect is the log line. -/
theorem fetchPage_request_fault (w : World) (url : String) (err : String)
    (hreq : w.NewRequest "GET" url = .error err) :
    (fetchPage w url).1
      = { URL := url, Title := "Error", Description := "", Headings := [] } ∧
    (∀ req, Event.send req ∉ (fetchPage w url).2) ∧
    (fetchPage w url).2 = [Event.log ("Error creating request: " ++ err)] := by
  simp [fetchPage, hreq]

/-- Claim C7 at a URL without a scheme. -/
theorem fetchPage_request_fault_witness :
    sampleWorld.NewRequest "GET" "://bad" = .error "missing protocol scheme" ∧
    (fetchPage sampleWorld "://bad").1
      = { URL := "://bad", Title := "Error", Description := "", Headings := [] } ∧
    (∀ req, Event.send req ∉ (fetchPage sampleWorld "://bad").2) ∧
    (fetchPage sampleWorld "://bad").2
      = [Event.log ("Error creating request: " ++ "missing protocol scheme")] :=
  ⟨rfl, fetchPage_request_fault sampleWorld "://bad" "missing protocol scheme" rfl⟩

/-- Claim C8 fails as stated: the page of `http://error` is fetched and parsed, its request
object is built, and its record has the title `"Error"`, the text of its `title` element. -/
theorem error_title_of_fetched_page :
    sampleWorld.NewRequest "GET" "http://error" = .ok ⟨"GET", "http://error", []⟩ ∧
    sampleWorld.Do client (outbound ⟨"GET", "http://error", []⟩) = .ok "http://error" ∧
    sampleWorld.NewDocumentFromReader "http://error" = .ok docErrorTitle ∧
    (fetchPage sampleWorld "http://error").1.Title = "Error" ∧
    ¬ ∃ err, sampleWorld.NewRequest "GET" "http://error" = .error err :=
  ⟨rfl, rfl, rfl, by decide, by
    rintro ⟨err, h⟩
    exact Except.noConfusion
      ((show sampleWorld.NewRequest "GET" "http://error"
        = .ok ⟨"GET", "http://error", []⟩ from rfl).symm.trans h)⟩

/-- Claim C8, amended.  A record of `fetchPage` with the title `"Error"` comes either from a
request object that could not be built, or from a page that was fetched and parsed and whose
first `title` element has exactly the text `Error`; a transport fault or a parse fault never
gives that title. -/
theorem fetchPage_error_title (w : World) (url : String)
    (h : (fetchPage w url).1.Title = "Error") :
    (∃ err, w.NewRequest "GET" url = .error err) ∨
    (∃ req body doc n rest, w.NewRequest "GET" url = .ok req ∧
      w.Do client (outbound req) = .ok body ∧
      w.NewDocumentFromReader body = .ok doc ∧
      Find doc selTitle = n :: rest ∧ nodeText n = "Error") := by
  cases hreq : w.NewRequest "GET" url with
  | error err => exact Or.inl ⟨err, rfl⟩
  | ok req =>
    right
    cases hdo : w.Do client (outbound req) with
    | error err =>
      simp [fetchPage, hreq, hdo] at h
    | ok body =>
      cases hparse : w.NewDocumentFromReader body with
      | error err =>
        simp [fetchPage, hreq, hdo, hparse] at h
      | ok doc =>
        rw [fetchPage_ok w url req body doc hreq hdo hparse] at h
        simp only [extract] at h
        cases hsel : Find doc selTitle with
        | nil =>
          simp [hsel, Text_First_nil] at h
        | cons n rest =>
          rw [hsel, Text_First_cons] at h
          refine ⟨req, body, doc, n, rest, rfl, hdo, hparse, hsel, ?_⟩
          by_cases he : nodeText n = ""
          · simp [he] at h
          · simpa [he] using h

/-- Claim C8, amended, at a URL whose request object cannot be built. -/
theorem fetchPage_error_title_witness :
    (fetchPage sampleWorld "://bad").1.Title = "Error" ∧
    ((∃ err, sampleWorld.NewRequest "GET" "://bad" = .error err) ∨
    (∃ req body doc n rest, sampleWorld.NewRequest "GET" "://bad" = .ok req ∧
      sampleWorld.Do client (outbound req) = .ok body ∧
      sampleWorld.NewDocumentFromReader body = .ok doc ∧
      Find doc selTitle = n :: rest ∧ nodeText n = "Error")) :=
  ⟨by decide, fetchPage_error_title sampleWorld "://bad" (by decide)⟩

/-! ## The claims on the scatter-gather loop -/

/-- Claim C1.  Whatever the URLs, the outcomes of the fetches and the order in which the
goroutines finish, the loop ends with exactly one record per input position: in the state
in which both loops have ended `results` has as many records as there are URLs.  The loop
does end: a run is never stuck before that state, it takes three steps per URL to reach it,
and every run can be continued to it.  With no URL nothing is launched and `results` stays
empty. -/
theorem main_results_length (urls : List String) (acts : List Action) (s : State)
    (hrun : exec acts (init urls) = some s) :
    (s.Finished → s.results.length = urls.length) ∧
    (¬ s.Finished → ∀ w, ∃ a s1, a.InWorld w ∧ step a s = some s1) ∧
    acts.length + s.fuel = 3 * urls.length ∧
    (s.Finished → s.fuel = 0) ∧
    (∀ w, ∃ more s1, (∀ a ∈ more, a.InWorld w) ∧
      exec (acts ++ more) (init urls) = some s1 ∧ s1.Finished ∧
      s1.results.length = urls.length) ∧
    (urls = [] → acts = [] ∧ s.results = []) := by
  have hc := Counts_exec urls acts s hrun
  have hfuel := fuel_exec acts (init urls) s hrun
  have hinit : (init urls).fuel = 3 * urls.length := by simp [State.fuel, init]
  have hlen : ∀ t : State, Counts urls t → t.Finished → t.results.length = urls.length := by
    intro t ht hf
    have := ht.gather
    simp [hf.2] at this
    exact this
  refine ⟨hlen s hc, fun hnf w => progress urls s w hc hnf, by omega, ?_, ?_, ?_⟩
  · intro hf
    have h1 := hc.tasks
    have h2 := hlen s hc hf
    simp only [State.undelivered, hf.1, List.length_nil] at h1
    simp only [State.fuel, hf.1, List.length_nil]
    omega
  · intro w
    obtain ⟨more, s1, hw, he, hfin⟩ := exists_finish urls w s.fuel s rfl hc
    have hrun1 : exec (acts ++ more) (init urls) = some s1 := by
      simp [exec_append, hrun, he]
    exact ⟨more, s1, hw, hrun1, hfin,
      hlen s1 (Counts_exec urls (acts ++ more) s1 hrun1) hfin⟩
  · intro hnil
    subst hnil
    have h0 : acts.length = 0 := by simp at hinit; omega
    have hacts : acts = [] := List.eq_nil_of_length_eq_zero h0
    subst hacts
    simp [exec] at hrun
    subst hrun
    exact ⟨rfl, rfl⟩

/-- Claim C1 on two URLs, one of which cannot be turned into a request: the run ends with
two records. -/
theorem main_results_length_witness :
    exec sampleRun (init sampleUrls) = some sampleFinal ∧ sampleFinal.Finished ∧
    sampleFinal.results.length = sampleUrls.length :=
  ⟨by decide, by decide,
    (main_results_length sampleUrls sampleRun sampleFinal (by decide)).1 (by decide)⟩

/-- Claim C2.  When both loops have ended, the `url` fields of the records are a rearrangement
of the submitted URLs: no record carries a URL that was not submitted, and when the URLs are
pairwise distinct each of them is the `url` of exactly one record.  This rests on `fetchPage`
returning the URL it was given on every return path. -/
theorem main_one_record_per_url (urls : List String) (acts : List Action) (s : State)
    (hrun : exec acts (init urls) = some s) (hfin : s.Finished) :
    (s.results.map (fun r => r.URL)).Perm urls ∧
    (∀ r ∈ s.results, r.URL ∈ urls) ∧
    (urls.Nodup → ∀ u ∈ urls, s.results.countP (fun r => decide (r.URL = u)) = 1) ∧
    (∀ w u, (fetchPage w u).1.URL = u) := by
  have hresp : ∀ a ∈ acts, a.Respects (fun r => r.URL) id := by
    intro a _
    cases a with
    | launch => trivial
    | compute i w => exact fun u => fetchPage_URL w u
    | receive j => trivial
  have hperm : (s.results.map (fun r => r.URL)).Perm urls := by
    have h := ledger_exec (fun r => r.URL) id urls acts s hresp hrun
    rw [ledger_finished (fun r => r.URL) id urls s (Counts_exec urls acts s hrun) hfin] at h
    simpa using h
  refine ⟨hperm, ?_, ?_, fetchPage_URL⟩
  · intro r hr
    exact hperm.subset (List.mem_map_of_mem _ hr)
  · intro hnd u hu
    have h1 : (s.results.map (fun r => r.URL)).count u = 1 := by
      rw [hperm.count_eq]
      exact List.count_eq_one_of_mem hnd hu
    rw [List.count, List.countP_map] at h1
    rw [← h1]
    apply List.countP_congr
    intro r _
    simp

/-- Claim C2 on two distinct URLs: each is the `url` of exactly one of the two records. -/
theorem main_one_record_per_url_witness :
    exec sampleRun (init sampleUrls) = some sampleFinal ∧ sampleFinal.Finished ∧
    sampleUrls.Nodup ∧
    sampleFinal.results.map (fun r => r.URL) = ["://bad", "http://abc"] ∧
    sampleFinal.results.countP (fun r => decide (r.URL = "http://abc")) = 1 :=
  ⟨by decide, by decide, by decide, by decide,
    (main_one_record_per_url sampleUrls sampleRun sampleFinal (by decide) (by decide)).2.2.1
      (by decide) "http://abc" (by decide)⟩

/-- Claim C9.  With the network and the pages fixed (every fetch happens in the same world,
so the same URL always has the same outcome and the same document), two runs of the batch on
the same URLs, under any two completion orders, end with collections that are rearrangements
of each other, the records being equal in every field; both hold exactly the records
`fetchPage` gives for the submitted URLs. -/
theorem main_idempotent (w : World) (urls : List String) (acts1 acts2 : List Action)
    (s1 s2 : State)
    (hw1 : ∀ a ∈ acts1, a.InWorld w) (hw2 : ∀ a ∈ acts2, a.InWorld w)
    (hrun1 : exec acts1 (init urls) = some s1) (hrun2 : exec acts2 (init urls) = some s2)
    (hfin1 : s1.Finished) (hfin2 : s2.Finished) :
    s1.results.Perm s2.results ∧
    s1.results.Perm (urls.map (fun u => (fetchPage w u).1)) := by
  have key : ∀ (acts : List Action) (s : State), (∀ a ∈ acts, a.InWorld w) →
      exec acts (init urls) = some s → s.Finished →
      s.results.Perm (urls.map (fun u => (fetchPage w u).1)) := by
    intro acts s hw hrun hfin
    have hresp : ∀ a ∈ acts, a.Respects id (fun u => (fetchPage w u).1) := by
      intro a ha
      have hin := hw a ha
      cases a with
      | launch => trivial
      | compute i w0 =>
        simp only [Action.InWorld] at hin
        subst hin
        exact fun u => rfl
      | receive j => trivial
    have h := ledger_exec id (fun u => (fetchPage w u).1) urls acts s hresp hrun
    rw [ledger_finished id _ urls s (Counts_exec urls acts s hrun) hfin] at h
    simpa using h
  have h1 := key acts1 s1 hw1 hrun1 hfin1
  have h2 := key acts2 s2 hw2 hrun2 hfin2
  exact ⟨h1.trans h2.symm, h1⟩

/-- Claim C9 on two runs that deliver the two records in opposite orders. -/
theorem main_idempotent_witness :
    exec sampleRun (init sampleUrls) = some sampleFinal ∧
    exec sampleRunInOrder (init sampleUrls) = some sampleFinalInOrder ∧
    sampleFinal.results ≠ sampleFinalInOrder.results ∧
    sampleFinal.results.Perm sampleFinalInOrder.results :=
  ⟨by decide, by decide, by decide,
    (main_idempotent sampleWorld sampleUrls sampleRun sampleRunInOrder sampleFinal
      sampleFinalInOrder (by simp [sampleRun, Action.InWorld])
      (by simp [sampleRunInOrder, Action.InWorld]) (by decide) (by decide) (by decide)
      (by decide)).1⟩

/-- Claim C10 fails as stated during the launch loop: after its first iteration on two URLs
one goroutine has been launched and not delivered and nothing has been collected, so the sum
is 1 and not 2. -/
theorem launch_phase_count :
    exec [.launch, .compute 0 sampleWorld] (init sampleUrls) = some sampleMidLaunch ∧
    sampleMidLaunch.results.length + sampleMidLaunch.undelivered ≠ sampleUrls.length :=
  ⟨by decide, by decide⟩

/-- Claim C10, amended.  In every state the loop reaches, the records collected, the
goroutines launched and not yet delivered, and the URLs not yet launched add up to the number
of URLs.  Nothing is collected before the launch loop has ended, so from then on collected
plus undelivered is the number of URLs, and the gather loop has one iteration left for every
record not yet collected.  In the state in which the gather loop has ended every record has
been collected and no goroutine is still running or waiting to send. -/
theorem main_gather_complete (urls : List String) (acts : List Action) (s : State)
    (hrun : exec acts (init urls) = some s) :
    s.results.length + s.undelivered + s.launchRest.length = urls.length ∧
    (s.launchRest ≠ [] → s.results = []) ∧
    (s.launchRest = [] → s.results.length + s.undelivered = urls.length) ∧
    s.gatherRest.length + s.results.length = urls.length ∧
    (s.Finished → s.results.length = urls.length ∧ s.running = [] ∧ s.blocked = []) := by
  obtain ⟨h1, h2, h3⟩ := Counts_exec urls acts s hrun
  refine ⟨by omega, h3, ?_, h2, ?_⟩
  · intro hl
    simp only [hl, List.length_nil] at h1
    omega
  · rintro ⟨hl, hg⟩
    simp only [State.undelivered, hl, hg, List.length_nil] at h1 h2
    exact ⟨by omega, List.eq_nil_of_length_eq_zero (by omega),
      List.eq_nil_of_length_eq_zero (by omega)⟩

/-- Claim C10, amended, on the run of two URLs: at its end both records are collected and no
goroutine is left. -/
theorem main_gather_complete_witness :
    exec sampleRun (init sampleUrls) = some sampleFinal ∧ sampleFinal.Finished ∧
    sampleFinal.results.length = sampleUrls.length ∧ sampleFinal.running = [] ∧
    sampleFinal.blocked = [] :=
  ⟨by decide, by decide,
    (main_gather_complete sampleUrls sampleRun sampleFinal (by decide)).2.2.2.2 (by decide)⟩

end Scraper
